import Mathlib

set_option maxHeartbeats 1000000

/- Shallow embedding of the keyboard library's input pipeline
   (keyboard_common.go): the escape-sequence decoder `extract_event`,
   the key-table matcher `parse_escape_sequence`, the UTF-8 decoding
   step modelled after Go's `utf8.DecodeRune`, and the frame-assembling
   loop `inputEventsProducer`.  Bytes are modelled as `Nat`, byte
   strings as `List Nat`, the terminal key table `keys` as a
   `List (List Nat)`, and sends on the `input_comm` channel as returned
   event lists (in send order). -/

/-- Model of the Go struct `keyEvent`: `key` and `rune` hold the numeric
values of the Go fields (Go zero value 0), `err` models the `error`
field (`none` is Go's `nil`). -/
structure keyEvent where
  key : Nat := 0
  rune : Nat := 0
  err : Option Nat := none
  deriving DecidableEq

/-- Model of the Go struct `input_event`: a chunk of raw bytes plus an
optional read error. -/
structure input_event where
  data : List Nat
  err : Option Nat := none
  deriving DecidableEq

/-- Go constant `KeyEsc = 0x1B`. -/
def KeyEsc : Nat := 0x1B

/-- Go constant `KeySpace = 0x20`. -/
def KeySpace : Nat := 0x20

/-- Go constant `KeyBackspace2 = 0x7F`. -/
def KeyBackspace2 : Nat := 0x7F

/-- Go constant `KeyCtrlC = 0x03`. -/
def KeyCtrlC : Nat := 0x03

/-- Go constant `KeyArrowUp = 0xFFFF - 18` (19th entry of the iota block). -/
def KeyArrowUp : Nat := 0xFFFF - 18

/-- Go constant `utf8.RuneError = 0xFFFD`. -/
def RuneError : Nat := 0xFFFD

/-- Model of Go's `strings.HasPrefix(s, p)` on byte strings:
`leadsWith s p = true` iff `p` is a prefix of `s`. -/
def leadsWith : List Nat → List Nat → Bool
  | _, [] => true
  | [], _ :: _ => false
  | a :: s, b :: p => (a == b) && leadsWith s p

/-- `Key(0xFFFF - i)` in Go: the int `0xFFFF - i` converted to `uint16`
(reduction mod 2^16; for `i % 0x10000 ≤ 0xFFFF` the value is
`0xFFFF - i % 0x10000`). -/
def keyOfIdx (i : Nat) : Nat := 0xFFFF - i % 0x10000

/-- The `for i, key := range keys` loop of `parse_escape_sequence`:
scan the table from index `i` on, returning `(len(key), event)` for the
first entry `key` that is a prefix of `buf`, and `(0, zero event)` when
none is. -/
def pes_go (buf : List Nat) : Nat → List (List Nat) → Nat × keyEvent
  | _, [] => (0, {})
  | i, k :: rest =>
    if leadsWith buf k then (k.length, { key := keyOfIdx i })
    else pes_go buf (i + 1) rest

/-- Model of `parse_escape_sequence(buf)` (reads the global `keys`,
passed here explicitly). -/
def parse_escape_sequence (keys : List (List Nat)) (buf : List Nat) :
    Nat × keyEvent :=
  pes_go buf 0 keys

/-- Model of Go's `utf8.DecodeRune(p)`: returns `(r, size)`.  The empty
input gives `(RuneError, 0)`; an invalid first byte, a truncated
sequence, an out-of-range continuation byte, a surrogate or an overlong
encoding gives `(RuneError, 1)`; a well-formed encoding gives the
decoded scalar and its byte length.  The per-first-byte continuation
ranges mirror Go's `first`/`acceptRanges` tables. -/
def decodeRune (p : List Nat) : Nat × Nat :=
  if p.length = 0 then (RuneError, 0)
  else if p.headD 0 < 0x80 then (p.headD 0, 1)
  else if p.headD 0 < 0xC2 then (RuneError, 1)
  else if p.headD 0 < 0xE0 then
    if p.length < 2 then (RuneError, 1)
    else if 0x80 ≤ p.getD 1 0 ∧ p.getD 1 0 ≤ 0xBF then
      (p.headD 0 % 32 * 64 + p.getD 1 0 % 64, 2)
    else (RuneError, 1)
  else if p.headD 0 < 0xF0 then
    if p.length < 3 then (RuneError, 1)
    else if (if p.headD 0 = 0xE0 then 0xA0 else 0x80) ≤ p.getD 1 0 ∧
        p.getD 1 0 ≤ (if p.headD 0 = 0xED then 0x9F else 0xBF) ∧
        0x80 ≤ p.getD 2 0 ∧ p.getD 2 0 ≤ 0xBF then
      (p.headD 0 % 16 * 4096 + p.getD 1 0 % 64 * 64 + p.getD 2 0 % 64, 3)
    else (RuneError, 1)
  else if p.headD 0 < 0xF5 then
    if p.length < 4 then (RuneError, 1)
    else if (if p.headD 0 = 0xF0 then 0x90 else 0x80) ≤ p.getD 1 0 ∧
        p.getD 1 0 ≤ (if p.headD 0 = 0xF4 then 0x8F else 0xBF) ∧
        0x80 ≤ p.getD 2 0 ∧ p.getD 2 0 ≤ 0xBF ∧
        0x80 ≤ p.getD 3 0 ∧ p.getD 3 0 ≤ 0xBF then
      (p.headD 0 % 8 * 262144 + p.getD 1 0 % 64 * 4096 +
        p.getD 2 0 % 64 * 64 + p.getD 3 0 % 64, 4)
    else (RuneError, 1)
  else (RuneError, 1)

/-- Model of `extract_event(inbuf)`: returns the consumed size together
with the list of events sent on `input_comm` during the call (empty or
a singleton).  Branch order follows the Go source: empty buffer, escape
byte `'\033'`, functional key (`Key(inbuf[0]) <= KeySpace` or
`== KeyBackspace2`), UTF-8 rune. -/
def extract_event (keys : List (List Nat)) (inbuf : List Nat) :
    Nat × List keyEvent :=
  if inbuf.length = 0 then (0, [])
  else if inbuf.headD 0 = 0x1B then
    if (parse_escape_sequence keys inbuf).1 ≠ 0 then
      ((parse_escape_sequence keys inbuf).1,
        [(parse_escape_sequence keys inbuf).2])
    else (1, [{ key := KeyEsc }])
  else if inbuf.headD 0 ≤ KeySpace ∨ inbuf.headD 0 = KeyBackspace2 then
    (1, [{ key := inbuf.headD 0 }])
  else if (decodeRune inbuf).1 ≠ RuneError then
    ((decodeRune inbuf).2, [{ rune := (decodeRune inbuf).1 }])
  else (0, [])

/-- Model of the front truncation `copy(inbuf, inbuf[size:]);
inbuf = inbuf[:len(inbuf)-size]`: after the (overlap-safe) copy the
slice holds `inbuf[n:]` followed by the untouched tail
`inbuf[len-n:]`, and the reslice keeps the first `len - n` bytes. -/
def truncFront (buf : List Nat) (n : Nat) : List Nat :=
  (buf.drop n ++ buf.drop (buf.length - n)).take (buf.length - n)

/-- The `for { select ... } }` loop of `inputEventsProducer`, driven by
the list of `input_event`s received from `input_buf`: an event with a
non-nil error produces one failure event and stops; otherwise the chunk
is appended, `extract_event` is invoked once, and on a non-zero size
the buffer is front-truncated. -/
def producerLoop (keys : List (List Nat)) :
    List Nat → List input_event → List keyEvent
  | _, [] => []
  | buf, ev :: rest =>
    match ev.err with
    | some e => [{ err := some e }]
    | none =>
      (extract_event keys (buf ++ ev.data)).2 ++
        producerLoop keys
          (if (extract_event keys (buf ++ ev.data)).1 ≠ 0 then
            truncFront (buf ++ ev.data) (extract_event keys (buf ++ ev.data)).1
          else buf ++ ev.data)
          rest

/-- Model of `inputEventsProducer()`: one initial `extract_event` on the
current buffer (with front truncation on success), then the receive
loop. -/
def inputEventsProducer (keys : List (List Nat)) (buf : List Nat)
    (evs : List input_event) : List keyEvent :=
  (extract_event keys buf).2 ++
    producerLoop keys
      (if (extract_event keys buf).1 ≠ 0 then
        truncFront buf (extract_event keys buf).1
      else buf)
      evs

/-- Feed a list of error-free chunks through the assembler, starting
from an empty buffer; the result is the ordered list of emitted key
events. -/
def feed (keys : List (List Nat)) (chunks : List (List Nat)) :
    List keyEvent :=
  inputEventsProducer keys [] (chunks.map fun c => { data := c })

/-- The standard UTF-8 encoding of a Unicode scalar value, used to state
claims that quantify over valid scalars. -/
def utf8Encode (c : Nat) : List Nat :=
  if c < 0x80 then [c]
  else if c < 0x800 then [0xC0 + c / 64, 0x80 + c % 64]
  else if c < 0x10000 then
    [0xE0 + c / 4096, 0x80 + c / 64 % 64, 0x80 + c % 64]
  else
    [0xF0 + c / 262144, 0x80 + c / 4096 % 64, 0x80 + c / 64 % 64,
      0x80 + c % 64]

/-- A key table whose 19th entry (index 18, hence mapped to
`Key(0xFFFF - 18) = KeyArrowUp`) is the sequence `"\x1b[A"`; the first
18 entries are inert one-byte fillers. -/
def cexKeys1 : List (List Nat) :=
  List.replicate 18 [0xFF] ++ [[0x1B, 0x5B, 0x41]]

/-- The symbolic-key variant of a `keyEvent`: rune 0 and nil error. -/
def isSymbolicEvent (e : keyEvent) : Prop := e.rune = 0 ∧ e.err = none

/-- The character variant of a `keyEvent`: non-zero rune, no symbolic
key set, nil error. -/
def isCharEvent (e : keyEvent) : Prop :=
  e.rune ≠ 0 ∧ e.key = 0 ∧ e.err = none

/-- The failure variant of a `keyEvent`: non-nil error, neither key nor
rune set. -/
def isFailureEvent (e : keyEvent) : Prop :=
  e.err ≠ none ∧ e.key = 0 ∧ e.rune = 0

/-- Claim C1 counterexample: with `"\x1b[A"` mapped to `KeyArrowUp`,
feeding the single chunk `"\x1b[A"` yields exactly `[ArrowUp]`, but
feeding the two chunks `"\x1b["` then `"A"` yields a different event
sequence, and the first chunk alone already emits an event. -/
theorem c1_cex :
    feed cexKeys1 [[0x1B, 0x5B, 0x41]] = [{ key := KeyArrowUp }] ∧
    feed cexKeys1 [[0x1B, 0x5B], [0x41]] ≠ feed cexKeys1 [[0x1B, 0x5B, 0x41]] ∧
    feed cexKeys1 [[0x1B, 0x5B]] ≠ [] := by
  decide

/-- Claim C1 (corrected): chunk-boundary independence does not hold.
The assembler attempts only one extraction per incoming chunk, and an
escape prefix not matching any table entry is immediately decoded as a
standalone Esc.  With `"\x1b[A"` mapped to `KeyArrowUp`: the single
chunk `"\x1b[A"` yields `[ArrowUp]`; the chunk `"\x1b["` alone yields
`[Esc]`; the chunks `"\x1b["` then `"A"` yield `[Esc, '[']`. -/
theorem c1_amended :
    feed cexKeys1 [[0x1B, 0x5B, 0x41]] = [{ key := KeyArrowUp }] ∧
    feed cexKeys1 [[0x1B, 0x5B]] = [{ key := KeyEsc }] ∧
    feed cexKeys1 [[0x1B, 0x5B], [0x41]] =
      [{ key := KeyEsc }, { rune := 0x5B }] := by
  decide

/-- Claim C2 counterexample: with the table `[["\x1b[A"]]` and the
buffer `"\x1b["`, no table entry is a prefix of the buffer, yet the
one-byte extension `"\x1b[A"` does match a table entry in full — and
the decoder nevertheless emits a standalone Esc and consumes 1 byte
instead of waiting for more bytes. -/
theorem c2_cex :
    leadsWith ([0x1B, 0x5B] ++ [0x41]) [0x1B, 0x5B, 0x41] = true ∧
    leadsWith [0x1B, 0x5B] [0x1B, 0x5B, 0x41] = false ∧
    extract_event [[0x1B, 0x5B, 0x41]] [0x1B, 0x5B] =
      (1, [{ key := KeyEsc }]) := by
  decide

/-- Claim C3 counterexample: with the table
`[["\x1b["], ["\x1b[A"]]` and the buffer `"\x1b[A"`, the longest
prefix-matching entry is the second one (length 3), yet the decoder
selects the first entry in table order, consuming 2 bytes and emitting
`Key 0xFFFF`, not the longest entry's key and length. -/
theorem c3_cex :
    leadsWith [0x1B, 0x5B, 0x41] [0x1B, 0x5B, 0x41] = true ∧
    List.length [0x1B, 0x5B, 0x41] = 3 ∧
    extract_event [[0x1B, 0x5B], [0x1B, 0x5B, 0x41]] [0x1B, 0x5B, 0x41] =
      (2, [{ key := 0xFFFF }]) ∧
    extract_event [[0x1B, 0x5B], [0x1B, 0x5B, 0x41]] [0x1B, 0x5B, 0x41] ≠
      (3, [{ key := 0xFFFE }]) := by
  decide

/-- Claim C5 counterexample: `0xEF 0xBF 0xBD` is the valid 3-byte UTF-8
encoding of the scalar U+FFFD, whose head is neither an escape nor a
control byte, yet the decoder emits no event and consumes 0 bytes
instead of emitting the character. -/
theorem c5_cex :
    utf8Encode 0xFFFD = [0xEF, 0xBF, 0xBD] ∧
    0xFFFD < 0x110000 ∧ 0xE000 ≤ 0xFFFD ∧
    extract_event [] [0xEF, 0xBF, 0xBD] = (0, []) ∧
    extract_event [] [0xEF, 0xBF, 0xBD] ≠ (3, [{ rune := 0xFFFD }]) := by
  decide

/-- Claim C6 counterexample: the chunk `"AB"` contains the bytes of two
complete events, but only the first one is emitted before the assembler
waits for the next chunk — even though `extract_event` on the remaining
buffer `"B"` would produce the second event. -/
theorem c6_cex :
    feed [] [[0x41, 0x42]] = [{ rune := 0x41 }] ∧
    feed [] [[0x41, 0x42]] ≠ [{ rune := 0x41 }, { rune := 0x42 }] ∧
    extract_event [] [0x42] = (1, [{ rune := 0x42 }]) := by
  decide

/-- Claim C8 (confirmed): when the producer loop receives an input
event with a non-nil error, it emits exactly one key event carrying
that error and terminates, producing nothing for the remaining input
events. -/
theorem c8_error_term (keys : List (List Nat)) (buf : List Nat)
    (d : List Nat) (e0 : Nat) (rest : List input_event) :
    producerLoop keys buf ({ data := d, err := some e0 } :: rest) =
      [{ err := some e0 }] := by
  rfl

lemma leadsWith_length {p s : List Nat} (h : leadsWith s p = true) :
    p.length ≤ s.length := by
  induction p generalizing s with
  | nil => simp
  | cons b p ih =>
    cases s with
    | nil => simp [leadsWith] at h
    | cons a s =>
      simp only [leadsWith, Bool.and_eq_true] at h
      have := ih h.2
      simp only [List.length_cons]
      omega

lemma pes_go_fst_le (buf : List Nat) (i : Nat) (ks : List (List Nat)) :
    (pes_go buf i ks).1 ≤ buf.length := by
  induction ks generalizing i with
  | nil => simp [pes_go]
  | cons k rest ih =>
    simp only [pes_go]
    split
    · next h => exact leadsWith_length h
    · exact ih (i + 1)

lemma getD1 (a b : Nat) (l : List Nat) : (a :: b :: l).getD 1 0 = b := rfl

lemma getD2 (a b c : Nat) (l : List Nat) : (a :: b :: c :: l).getD 2 0 = c := rfl

lemma getD3 (a b c d : Nat) (l : List Nat) :
    (a :: b :: c :: d :: l).getD 3 0 = d := rfl

lemma decodeRune_snd_le (p : List Nat) : (decodeRune p).2 ≤ p.length := by
  unfold decodeRune
  split_ifs <;> dsimp only <;> omega

lemma extract_fst_le (keys : List (List Nat)) (buf : List Nat) :
    (extract_event keys buf).1 ≤ buf.length := by
  unfold extract_event
  split_ifs with h1 h2 h3 h4 h5
  · simp
  · simpa [parse_escape_sequence] using pes_go_fst_le buf 0 keys
  · omega
  · omega
  · exact decodeRune_snd_le buf
  · simp

lemma truncFront_drop {buf : List Nat} {n : Nat} :
    truncFront buf n = buf.drop n := by
  unfold truncFront
  exact List.take_left' (by rw [List.length_drop])

/-- Claim C7 (confirmed): whenever `extract_event` reports a positive
consumed size, the `copy`/reslice step removes exactly that many bytes
from the front of the buffer: the new buffer equals the old buffer's
suffix from that position on, and the size never exceeds the buffer
length. -/
theorem c7_front_trunc (keys : List (List Nat)) (buf : List Nat)
    (h : (extract_event keys buf).1 ≠ 0) :
    truncFront buf (extract_event keys buf).1 =
      buf.drop (extract_event keys buf).1 ∧
    (extract_event keys buf).1 ≤ buf.length :=
  ⟨truncFront_drop, extract_fst_le keys buf⟩

/-- Witness for C7 at the concrete buffer `"AB"`. -/
theorem c7_witness :
    truncFront [0x41, 0x42] (extract_event [] [0x41, 0x42]).1 =
      List.drop (extract_event [] [0x41, 0x42]).1 [0x41, 0x42] ∧
    (extract_event [] [0x41, 0x42]).1 ≤ List.length [0x41, 0x42] :=
  c7_front_trunc [] [0x41, 0x42] (by decide)

/-- Claim C4 (confirmed): a non-empty buffer whose first byte is not
`0x1B` and is a control byte (value at most `KeySpace`, or equal to
`KeyBackspace2`) yields exactly one event whose key is that byte value,
consuming exactly 1 byte. -/
theorem c4_control_byte (keys : List (List Nat)) (b : Nat) (rest : List Nat)
    (h1 : b ≠ 0x1B) (h2 : b ≤ 0x20 ∨ b = 0x7F) :
    extract_event keys (b :: rest) = (1, [{ key := b }]) := by
  unfold extract_event
  rw [if_neg (by simp), if_neg (by simpa using h1),
    if_pos (by simpa [KeySpace, KeyBackspace2] using h2)]
  simp

/-- Witness for C4: the byte `0x03` yields exactly one Ctrl-C event. -/
theorem c4_witness :
    (0x03 : Nat) ≠ 0x1B ∧
    extract_event [] [0x03] = (1, [{ key := KeyCtrlC }]) :=
  ⟨by decide, c4_control_byte [] 0x03 [] (by decide) (Or.inl (by decide))⟩

lemma pes_go_nomatch {buf : List Nat} {ks : List (List Nat)}
    (h : ∀ k ∈ ks, leadsWith buf k = false) (i : Nat) :
    pes_go buf i ks = (0, {}) := by
  induction ks generalizing i with
  | nil => rfl
  | cons k rest ih =>
    simp only [pes_go]
    rw [if_neg (by simp [h k (List.mem_cons_self _ _)])]
    exact ih (fun k' hk' => h k' (List.mem_cons_of_mem _ hk')) (i + 1)

/-- Claim C2 (corrected): when the buffer starts with `0x1B` and no
key-table entry is a prefix of the buffer, the decoder always emits a
standalone Esc event and consumes exactly 1 byte — it does not wait
even when an extension of the buffer could still match a table
entry. -/
theorem c2_amended (keys : List (List Nat)) (rest : List Nat)
    (h : ∀ k ∈ keys, leadsWith (0x1B :: rest) k = false) :
    extract_event keys (0x1B :: rest) = (1, [{ key := KeyEsc }]) := by
  have hp : parse_escape_sequence keys (0x1B :: rest) = (0, {}) := by
    unfold parse_escape_sequence
    exact pes_go_nomatch h 0
  unfold extract_event
  rw [if_neg (by simp), if_pos (by simp), hp]
  simp

/-- Witness for C2 (amended) at the buffer `"\x1b["` and the table
`[["\x1b[A"]]`, where an extension could still match. -/
theorem c2_amended_witness :
    (∀ k ∈ [[0x1B, 0x5B, 0x41]], leadsWith [0x1B, 0x5B] k = false) ∧
    extract_event [[0x1B, 0x5B, 0x41]] [0x1B, 0x5B] =
      (1, [{ key := KeyEsc }]) :=
  ⟨by decide, c2_amended [[0x1B, 0x5B, 0x41]] [0x5B] (by decide)⟩

lemma pes_go_first (buf : List Nat) (k : List Nat) (post : List (List Nat)) :
    ∀ (pre : List (List Nat)) (i : Nat),
      (∀ k' ∈ pre, leadsWith buf k' = false) → leadsWith buf k = true →
      pes_go buf i (pre ++ k :: post) =
        (k.length, { key := keyOfIdx (i + pre.length) }) := by
  intro pre
  induction pre with
  | nil =>
    intro i h hk
    simp [pes_go, hk]
  | cons p pre ih =>
    intro i h hk
    simp only [List.cons_append, pes_go]
    rw [if_neg (by simp [h p (List.mem_cons_self _ _)])]
    have hrec := ih (i + 1) (fun k' hk' => h k' (List.mem_cons_of_mem _ hk')) hk
    have harr : i + 1 + pre.length = i + (p :: pre).length := by
      simp only [List.length_cons]
      omega
    rw [harr] at hrec
    exact hrec

/-- Claim C3 (corrected): for a buffer beginning with `0x1B`, the
decoder selects the first entry in table order whose byte sequence is a
prefix of the buffer (not necessarily the longest match); when that
first match is non-empty, it emits `Key(0xFFFF - index)` and consumes
exactly that entry's length. -/
theorem c3_amended (keys pre k : List (List Nat)) (kk : List Nat)
    (post : List (List Nat)) (rest : List Nat)
    (hsplit : keys = pre ++ kk :: post)
    (hpre : ∀ k' ∈ pre, leadsWith (0x1B :: rest) k' = false)
    (hk : leadsWith (0x1B :: rest) kk = true) (hne : kk ≠ []) :
    extract_event keys (0x1B :: rest) =
      (kk.length, [{ key := keyOfIdx pre.length }]) := by
  subst hsplit
  have hp : parse_escape_sequence (pre ++ kk :: post) (0x1B :: rest) =
      (kk.length, { key := keyOfIdx pre.length }) := by
    unfold parse_escape_sequence
    rw [pes_go_first (0x1B :: rest) kk post pre 0 hpre hk]
    simp
  unfold extract_event
  rw [if_neg (by simp), if_pos (by simp), hp,
    if_pos (by simpa using fun hz => hne (List.length_eq_zero.mp hz))]

/-- Witness for C3 (amended): with the table `[[0x41], "\x1b["]` the
second entry (index 1) is the first prefix match of `"\x1b[C"`, so the
decoder consumes 2 bytes and emits `Key 0xFFFE`. -/
theorem c3_amended_witness :
    (∀ k' ∈ [[0x41]], leadsWith [0x1B, 0x5B, 0x43] k' = false) ∧
    leadsWith [0x1B, 0x5B, 0x43] [0x1B, 0x5B] = true ∧
    extract_event [[0x41], [0x1B, 0x5B]] [0x1B, 0x5B, 0x43] =
      (2, [{ key := 0xFFFE }]) :=
  ⟨by decide, by decide,
    c3_amended [[0x41], [0x1B, 0x5B]] [[0x41]] [] [0x1B, 0x5B] []
      [0x5B, 0x43] rfl (by decide) (by decide) (by decide)⟩

lemma utf8Encode_one {c : Nat} (h : c < 0x80) : utf8Encode c = [c] := by
  simp [utf8Encode, h]

lemma utf8Encode_two {c : Nat} (h1 : 0x80 ≤ c) (h2 : c < 0x800) :
    utf8Encode c = [0xC0 + c / 64, 0x80 + c % 64] := by
  unfold utf8Encode
  rw [if_neg (by omega), if_pos h2]

lemma utf8Encode_three {c : Nat} (h1 : 0x800 ≤ c) (h2 : c < 0x10000) :
    utf8Encode c = [0xE0 + c / 4096, 0x80 + c / 64 % 64, 0x80 + c % 64] := by
  unfold utf8Encode
  rw [if_neg (by omega), if_neg (by omega), if_pos h2]

lemma utf8Encode_four {c : Nat} (h1 : 0x10000 ≤ c) :
    utf8Encode c =
      [0xF0 + c / 262144, 0x80 + c / 4096 % 64, 0x80 + c / 64 % 64,
        0x80 + c % 64] := by
  unfold utf8Encode
  rw [if_neg (by omega), if_neg (by omega), if_neg (by omega)]

lemma decodeRune_one {c : Nat} (rest : List Nat) (h : c < 0x80) :
    decodeRune (c :: rest) = (c, 1) := by
  unfold decodeRune
  simp only [List.length_cons, List.headD_cons]
  rw [if_neg (by omega), if_pos h]

lemma decodeRune_two {c : Nat} (rest : List Nat) (h1 : 0x80 ≤ c)
    (h2 : c < 0x800) :
    decodeRune ((0xC0 + c / 64) :: (0x80 + c % 64) :: rest) = (c, 2) := by
  unfold decodeRune
  simp only [List.length_cons, List.headD_cons, getD1]
  have e1 : (0xC0 + c / 64) % 32 = c / 64 := by omega
  have e2 : (0x80 + c % 64) % 64 = c % 64 := by omega
  split_ifs <;> first
    | contradiction
    | (simp only [RuneError, Prod.mk.injEq, and_true, true_and, and_false,
        false_and, e1, e2]
       omega)
    | omega

lemma decodeRune_three {c : Nat} (rest : List Nat) (h1 : 0x800 ≤ c)
    (h2 : c < 0x10000) (h3 : c < 0xD800 ∨ 0xE000 ≤ c) :
    decodeRune
      ((0xE0 + c / 4096) :: (0x80 + c / 64 % 64) :: (0x80 + c % 64) :: rest) =
      (c, 3) := by
  unfold decodeRune
  simp only [List.length_cons, List.headD_cons, getD1, getD2]
  have e1 : (0xE0 + c / 4096) % 16 = c / 4096 := by omega
  have e2 : (0x80 + c / 64 % 64) % 64 = c / 64 % 64 := by omega
  have e3 : (0x80 + c % 64) % 64 = c % 64 := by omega
  split_ifs <;> first
    | contradiction
    | (simp only [RuneError, Prod.mk.injEq, and_true, true_and, and_false,
        false_and, e1, e2, e3]
       omega)
    | omega

lemma decodeRune_four {c : Nat} (rest : List Nat) (h1 : 0x10000 ≤ c)
    (h2 : c < 0x110000) :
    decodeRune
      ((0xF0 + c / 262144) :: (0x80 + c / 4096 % 64) ::
        (0x80 + c / 64 % 64) :: (0x80 + c % 64) :: rest) = (c, 4) := by
  unfold decodeRune
  simp only [List.length_cons, List.headD_cons, getD1, getD2, getD3]
  have e1 : (0xF0 + c / 262144) % 8 = c / 262144 := by omega
  have e2 : (0x80 + c / 4096 % 64) % 64 = c / 4096 % 64 := by omega
  have e3 : (0x80 + c / 64 % 64) % 64 = c / 64 % 64 := by omega
  have e4 : (0x80 + c % 64) % 64 = c % 64 := by omega
  split_ifs <;> first
    | contradiction
    | (simp only [RuneError, Prod.mk.injEq, and_true, true_and, and_false,
        false_and, e1, e2, e3, e4]
       omega)
    | omega

lemma extract_utf8 (keys : List (List Nat)) (c : Nat) (rest : List Nat)
    (hsc : c < 0x110000) (hsur : c < 0xD800 ∨ 0xE000 ≤ c)
    (hne : c ≠ RuneError) (hc1 : 0x20 < c) (hc2 : c ≠ 0x7F) :
    extract_event keys (utf8Encode c ++ rest) =
      ((utf8Encode c).length, [{ rune := c }]) := by
  have hne' : c ≠ 0xFFFD := by simpa [RuneError] using hne
  by_cases ha : c < 0x80
  · rw [utf8Encode_one ha]
    simp only [List.cons_append, List.nil_append, List.length_cons,
      List.length_nil]
    unfold extract_event
    simp only [List.length_cons, List.headD_cons]
    rw [if_neg (by omega), if_neg (by omega),
      if_neg (by simp only [KeySpace, KeyBackspace2]; omega),
      decodeRune_one rest ha,
      if_pos (by simp only [RuneError]; omega)]
    try simp
  by_cases hb : c < 0x800
  · rw [utf8Encode_two (by omega) hb]
    simp only [List.cons_append, List.nil_append, List.length_cons,
      List.length_nil]
    unfold extract_event
    simp only [List.length_cons, List.headD_cons]
    rw [if_neg (by omega), if_neg (by omega),
      if_neg (by simp only [KeySpace, KeyBackspace2]; omega),
      decodeRune_two rest (by omega) hb,
      if_pos (by simp only [RuneError]; omega)]
    try simp
  by_cases hcc : c < 0x10000
  · rw [utf8Encode_three (by omega) hcc]
    simp only [List.cons_append, List.nil_append, List.length_cons,
      List.length_nil]
    unfold extract_event
    simp only [List.length_cons, List.headD_cons]
    rw [if_neg (by omega), if_neg (by omega),
      if_neg (by simp only [KeySpace, KeyBackspace2]; omega),
      decodeRune_three rest (by omega) hcc hsur,
      if_pos (by simp only [RuneError]; omega)]
    try simp
  · rw [utf8Encode_four (by omega)]
    simp only [List.cons_append, List.nil_append, List.length_cons,
      List.length_nil]
    unfold extract_event
    simp only [List.length_cons, List.headD_cons]
    rw [if_neg (by omega), if_neg (by omega),
      if_neg (by simp only [KeySpace, KeyBackspace2]; omega),
      decodeRune_four rest (by omega) hsc,
      if_pos (by simp only [RuneError]; omega)]
    try simp

/-- Claim C5 (corrected): for every valid Unicode scalar other than
U+FFFD (= `utf8.RuneError`, which the decoder cannot distinguish from a
decoding failure) whose leading encoded byte is not a control byte, the
decoder emits exactly one character event carrying that scalar and
consumes exactly its encoded length; when decoding fails the decoder
emits nothing and consumes zero bytes; a rune split across two chunks
yields exactly one character event, only after the second chunk. -/
theorem c5_amended :
    (∀ (keys : List (List Nat)) (c : Nat) (rest : List Nat),
      c < 0x110000 → (c < 0xD800 ∨ 0xE000 ≤ c) → c ≠ RuneError →
      0x20 < c → c ≠ 0x7F →
      extract_event keys (utf8Encode c ++ rest) =
        ((utf8Encode c).length, [{ rune := c }])) ∧
    (∀ (keys : List (List Nat)) (b : Nat) (rest : List Nat),
      0x20 < b → b ≠ 0x7F → b ≠ 0x1B →
      (decodeRune (b :: rest)).1 = RuneError →
      extract_event keys (b :: rest) = (0, [])) ∧
    (feed [] [[0xE2], [0x82, 0xAC]] = [{ rune := 0x20AC }] ∧
      feed [] [[0xE2]] = []) := by
  refine ⟨fun keys c rest h1 h2 h3 h4 h5 =>
    extract_utf8 keys c rest h1 h2 h3 h4 h5, ?_, by decide⟩
  intro keys b rest hb h7f h1b hre
  unfold extract_event
  rw [if_neg (by simp), if_neg (by simpa using h1b),
    if_neg (by simp only [List.headD_cons, KeySpace, KeyBackspace2]; omega),
    if_neg (not_not_intro hre)]

/-- Witness for C5 (amended) at the scalar U+20AC. -/
theorem c5_amended_witness :
    (0x20AC : Nat) < 0x110000 ∧ (0x20AC : Nat) < 0xD800 ∧
    extract_event [] (utf8Encode 0x20AC ++ []) =
      ((utf8Encode 0x20AC).length, [{ rune := 0x20AC }]) :=
  ⟨by decide, by decide,
    c5_amended.1 [] 0x20AC [] (by decide) (Or.inl (by decide)) (by decide)
      (by decide) (by decide)⟩

lemma decodeRune_fffd (rest : List Nat) :
    decodeRune (0xEF :: 0xBF :: 0xBD :: rest) = (RuneError, 3) :=
  @decodeRune_three 0xFFFD rest (by norm_num) (by norm_num)
    (Or.inr (by norm_num))

lemma extract_fffd (keys : List (List Nat)) (rest : List Nat) :
    extract_event keys (0xEF :: 0xBF :: 0xBD :: rest) = (0, []) := by
  unfold extract_event
  rw [if_neg (by simp), if_neg (by simp [List.headD_cons]),
    if_neg (by simp [List.headD_cons, KeySpace, KeyBackspace2]),
    if_neg (by simp [decodeRune_fffd])]

/-- Claim C10 (confirmed): a buffer headed by the valid 3-byte encoding
`0xEF 0xBF 0xBD` of U+FFFD yields no event and zero consumed bytes —
the decoded rune equals the `RuneError` sentinel — and since nothing is
consumed, the bytes stay at the front of the buffer on every later
pass, whatever chunk is appended. -/
theorem c10_fffd (keys : List (List Nat)) (rest : List Nat) :
    extract_event keys (0xEF :: 0xBF :: 0xBD :: rest) = (0, []) ∧
    decodeRune (0xEF :: 0xBF :: 0xBD :: rest) = (RuneError, 3) ∧
    ∀ buf d : List Nat, buf.take 3 = [0xEF, 0xBF, 0xBD] →
      extract_event keys (buf ++ d) = (0, []) ∧
      (buf ++ d).take 3 = [0xEF, 0xBF, 0xBD] := by
  refine ⟨extract_fffd keys rest, decodeRune_fffd rest, ?_⟩
  intro buf d htake
  rcases buf with _ | ⟨x1, buf⟩
  · simp at htake
  rcases buf with _ | ⟨x2, buf⟩
  · simp at htake
  rcases buf with _ | ⟨x3, buf⟩
  · simp at htake
  have htake' : x1 :: x2 :: x3 :: ([] : List Nat) = [0xEF, 0xBF, 0xBD] :=
    htake
  simp only [List.cons.injEq, and_true] at htake'
  obtain ⟨h1, h2, h3⟩ := htake'
  subst h1 h2 h3
  constructor
  · simpa using extract_fffd keys (buf ++ d)
  · rfl

/-- Witness for C10 at the concrete buffer `EF BF BD` and chunk `"A"`. -/
theorem c10_witness :
    List.take 3 [0xEF, 0xBF, 0xBD] = [0xEF, 0xBF, 0xBD] ∧
    extract_event [] ([0xEF, 0xBF, 0xBD] ++ [0x41]) = (0, []) :=
  ⟨by decide, ((c10_fffd [] []).2.2 [0xEF, 0xBF, 0xBD] [0x41] (by decide)).1⟩

/-- Claim C6 (corrected): after a chunk is appended, the assembler
invokes `extract_event` exactly once (front-truncating on success)
before returning to its receive loop; since a single extraction emits
at most one event, at most one event is produced per incoming chunk —
further complete events stay buffered.  Concretely, the chunk `"AB"`
produces only the event for `'A'`. -/
theorem c6_amended :
    (∀ (keys : List (List Nat)) (buf d : List Nat)
        (rest : List input_event),
      producerLoop keys buf ({ data := d } :: rest) =
        (extract_event keys (buf ++ d)).2 ++
          producerLoop keys
            (if (extract_event keys (buf ++ d)).1 ≠ 0 then
              truncFront (buf ++ d) (extract_event keys (buf ++ d)).1
            else buf ++ d) rest) ∧
    (∀ (keys : List (List Nat)) (buf : List Nat),
      (extract_event keys buf).2.length ≤ 1) ∧
    feed [] [[0x41, 0x42]] = [{ rune := 0x41 }] := by
  refine ⟨fun keys buf d rest => rfl, fun keys buf => ?_, by decide⟩
  unfold extract_event
  split_ifs <;> simp

lemma pes_go_event (buf : List Nat) (i : Nat) (ks : List (List Nat)) :
    (pes_go buf i ks).2.rune = 0 ∧ (pes_go buf i ks).2.err = none := by
  induction ks generalizing i with
  | nil => exact ⟨rfl, rfl⟩
  | cons k rest ih =>
    simp only [pes_go]
    split
    · exact ⟨rfl, rfl⟩
    · exact ih (i + 1)

lemma decodeRune_fst_pos {b : Nat} (t : List Nat) (hb : 0x20 < b) :
    (decodeRune (b :: t)).1 ≠ 0 := by
  unfold decodeRune
  simp only [List.length_cons, List.headD_cons]
  split_ifs <;> try dsimp only
  all_goals first
    | contradiction
    | (simp only [RuneError]; omega)
    | omega

lemma extract_variant (keys : List (List Nat)) (buf : List Nat) :
    ∀ e ∈ (extract_event keys buf).2,
      (e.err = none ∧ e.rune = 0) ∨
        (e.err = none ∧ e.key = 0 ∧ e.rune ≠ 0) := by
  rcases buf with _ | ⟨b, t⟩
  · intro e he
    simp [extract_event] at he
  · intro e he
    unfold extract_event at he
    split_ifs at he with h1 h2 h3 h4 h5
    · simp at he
    · rw [List.mem_singleton] at he
      subst he
      have hp := pes_go_event (b :: t) 0 keys
      exact Or.inl ⟨hp.2, hp.1⟩
    · rw [List.mem_singleton] at he
      subst he
      exact Or.inl ⟨rfl, rfl⟩
    · rw [List.mem_singleton] at he
      subst he
      exact Or.inl ⟨rfl, rfl⟩
    · rw [List.mem_singleton] at he
      subst he
      refine Or.inr ⟨rfl, rfl, ?_⟩
      have hb : 0x20 < b := by
        simp only [List.headD_cons, KeySpace, KeyBackspace2] at h4
        omega
      exact decodeRune_fst_pos t hb
    · simp at he

lemma producerLoop_variant (keys : List (List Nat)) :
    ∀ (chunks : List input_event) (buf : List Nat) (e : keyEvent),
      e ∈ producerLoop keys buf chunks →
      (e.err = none ∧ e.rune = 0) ∨
        (e.err = none ∧ e.key = 0 ∧ e.rune ≠ 0) ∨
        (e.err ≠ none ∧ e.key = 0 ∧ e.rune = 0) := by
  intro chunks
  induction chunks with
  | nil =>
    intro buf e he
    simp [producerLoop] at he
  | cons ev rest ih =>
    intro buf e he
    rcases ev with ⟨d, derr⟩
    rcases derr with _ | e0
    · rw [show producerLoop keys buf ({ data := d, err := none } :: rest) =
          (extract_event keys (buf ++ d)).2 ++
            producerLoop keys
              (if (extract_event keys (buf ++ d)).1 ≠ 0 then
                truncFront (buf ++ d) (extract_event keys (buf ++ d)).1
              else buf ++ d) rest from rfl] at he
      rw [List.mem_append] at he
      rcases he with he | he
      · rcases extract_variant keys (buf ++ d) e he with h | h
        · exact Or.inl h
        · exact Or.inr (Or.inl h)
      · exact ih _ e he
    · rw [show producerLoop keys buf ({ data := d, err := some e0 } :: rest) =
          [{ err := some e0 }] from rfl] at he
      rw [List.mem_singleton] at he
      subst he
      exact Or.inr (Or.inr ⟨by simp, rfl, rfl⟩)

lemma variant_exclusive (e : keyEvent)
    (h : (e.err = none ∧ e.rune = 0) ∨
      (e.err = none ∧ e.key = 0 ∧ e.rune ≠ 0) ∨
      (e.err ≠ none ∧ e.key = 0 ∧ e.rune = 0)) :
    (isSymbolicEvent e ∧ ¬isCharEvent e ∧ ¬isFailureEvent e) ∨
    (isCharEvent e ∧ ¬isSymbolicEvent e ∧ ¬isFailureEvent e) ∨
    (isFailureEvent e ∧ ¬isSymbolicEvent e ∧ ¬isCharEvent e) := by
  unfold isSymbolicEvent isCharEvent isFailureEvent
  tauto

/-- Claim C9 (confirmed): every event emitted by the decoder or the
assembler populates exactly one of the three variants — symbolic key
(rune 0, nil error), character (non-zero rune, key unset, nil error),
or failure (non-nil error, key and rune unset). -/
theorem c9_one_variant (keys : List (List Nat)) (buf : List Nat)
    (chunks : List input_event) (e : keyEvent)
    (he : e ∈ inputEventsProducer keys buf chunks) :
    (isSymbolicEvent e ∧ ¬isCharEvent e ∧ ¬isFailureEvent e) ∨
    (isCharEvent e ∧ ¬isSymbolicEvent e ∧ ¬isFailureEvent e) ∨
    (isFailureEvent e ∧ ¬isSymbolicEvent e ∧ ¬isCharEvent e) := by
  apply variant_exclusive
  unfold inputEventsProducer at he
  rw [List.mem_append] at he
  rcases he with he | he
  · rcases extract_variant keys buf e he with h | h
    · exact Or.inl h
    · exact Or.inr (Or.inl h)
  · exact producerLoop_variant keys chunks _ e he

/-- Witness for C9 at the Ctrl-C event produced from the chunk `[0x03]`. -/
theorem c9_witness :
    ({ key := 0x03 } : keyEvent) ∈
      inputEventsProducer [] [] [{ data := [0x03] }] ∧
    ((isSymbolicEvent { key := 0x03 } ∧ ¬isCharEvent { key := 0x03 } ∧
        ¬isFailureEvent { key := 0x03 }) ∨
      (isCharEvent { key := 0x03 } ∧ ¬isSymbolicEvent { key := 0x03 } ∧
        ¬isFailureEvent { key := 0x03 }) ∨
      (isFailureEvent { key := 0x03 } ∧ ¬isSymbolicEvent { key := 0x03 } ∧
        ¬isCharEvent { key := 0x03 })) :=
  ⟨by decide,
    c9_one_variant [] [] [{ data := [0x03] }] { key := 0x03 } (by decide)⟩
